import Mathlib

/-!
Verification of the SSW (seam-shifted-wake) engine of the breaking-ball
designer.  The definitions below are a shallow embedding of the five-plane
`computeSSW` of `src/ssw.js`, of the quaternion and vector helpers of the
three.js library that the source calls, and of the compute-coordinator
state machine of the main module.  JavaScript numbers are modelled as real
numbers; `Number.EPSILON` is idealised to `0`.
-/

noncomputable section

/-- A 3-component vector, modelling `THREE.Vector3`. -/
@[ext]
structure Vec3 where
  x : ℝ
  y : ℝ
  z : ℝ

/-- A quaternion, modelling `THREE.Quaternion` (`x`, `y`, `z` imaginary parts, `w` real part). -/
@[ext]
structure Quat where
  x : ℝ
  y : ℝ
  z : ℝ
  w : ℝ

/-- Squared length of a vector. -/
def vecNormSq (v : Vec3) : ℝ := v.x ^ 2 + v.y ^ 2 + v.z ^ 2

/-- `THREE.Vector3.length`. -/
def vecLength (v : Vec3) : ℝ := Real.sqrt (vecNormSq v)

/-- `THREE.Vector3.normalize`: `divideScalar(length || 1)`, so a zero-length
vector is returned unchanged. -/
def vecNormalize (v : Vec3) : Vec3 :=
  if vecLength v = 0 then v
  else ⟨v.x / vecLength v, v.y / vecLength v, v.z / vecLength v⟩

/-- Squared norm of a quaternion. -/
def normSq (q : Quat) : ℝ := q.x ^ 2 + q.y ^ 2 + q.z ^ 2 + q.w ^ 2

/-- `THREE.Quaternion.normalize`: returns the identity quaternion when the
norm is `0`, otherwise divides every component by the norm. -/
def quatNormalize (q : Quat) : Quat :=
  if Real.sqrt (normSq q) = 0 then ⟨0, 0, 0, 1⟩
  else ⟨q.x / Real.sqrt (normSq q), q.y / Real.sqrt (normSq q),
        q.z / Real.sqrt (normSq q), q.w / Real.sqrt (normSq q)⟩

/-- `THREE.Quaternion.multiplyQuaternions` (the Hamilton product `a * b`;
`a.multiply(b)` in the source is this with `a` on the left). -/
def quatMultiply (a b : Quat) : Quat :=
  ⟨a.x * b.w + a.w * b.x + a.y * b.z - a.z * b.y,
   a.y * b.w + a.w * b.y + a.z * b.x - a.x * b.z,
   a.z * b.w + a.w * b.z + a.x * b.y - a.y * b.x,
   a.w * b.w - a.x * b.x - a.y * b.y - a.z * b.z⟩

/-- `THREE.Vector3.applyQuaternion`. -/
def applyQuaternion (q : Quat) (v : Vec3) : Vec3 :=
  ⟨v.x + q.w * (2 * (q.y * v.z - q.z * v.y)) + q.y * (2 * (q.x * v.y - q.y * v.x))
     - q.z * (2 * (q.z * v.x - q.x * v.z)),
   v.y + q.w * (2 * (q.z * v.x - q.x * v.z)) + q.z * (2 * (q.y * v.z - q.z * v.y))
     - q.x * (2 * (q.x * v.y - q.y * v.x)),
   v.z + q.w * (2 * (q.x * v.y - q.y * v.x)) + q.x * (2 * (q.z * v.x - q.x * v.z))
     - q.y * (2 * (q.y * v.z - q.z * v.y))⟩

/-- The rotation matrix induced by a quaternion, applied to a vector.  For a
unit quaternion this agrees with `applyQuaternion`; it is multiplicative for
all quaternions, which is what makes it a useful bridge in proofs. -/
def rotFormula (q : Quat) (v : Vec3) : Vec3 :=
  ⟨(q.w ^ 2 + q.x ^ 2 - q.y ^ 2 - q.z ^ 2) * v.x + 2 * (q.x * q.y - q.w * q.z) * v.y
     + 2 * (q.x * q.z + q.w * q.y) * v.z,
   2 * (q.x * q.y + q.w * q.z) * v.x + (q.w ^ 2 - q.x ^ 2 + q.y ^ 2 - q.z ^ 2) * v.y
     + 2 * (q.y * q.z - q.w * q.x) * v.z,
   2 * (q.x * q.z - q.w * q.y) * v.x + 2 * (q.y * q.z + q.w * q.x) * v.y
     + (q.w ^ 2 - q.x ^ 2 - q.y ^ 2 + q.z ^ 2) * v.z⟩

/-- `THREE.Quaternion.setFromAxisAngle` (the axis is assumed normalized by
the caller, as in three.js). -/
def setFromAxisAngle (axis : Vec3) (angle : ℝ) : Quat :=
  ⟨axis.x * Real.sin (angle / 2), axis.y * Real.sin (angle / 2),
   axis.z * Real.sin (angle / 2), Real.cos (angle / 2)⟩

/-- `THREE.Quaternion.setFromEuler` for rotation order XYZ. -/
def setFromEuler (ex ey ez : ℝ) : Quat :=
  ⟨Real.sin (ex / 2) * Real.cos (ey / 2) * Real.cos (ez / 2)
     + Real.cos (ex / 2) * Real.sin (ey / 2) * Real.sin (ez / 2),
   Real.cos (ex / 2) * Real.sin (ey / 2) * Real.cos (ez / 2)
     - Real.sin (ex / 2) * Real.cos (ey / 2) * Real.sin (ez / 2),
   Real.cos (ex / 2) * Real.cos (ey / 2) * Real.sin (ez / 2)
     + Real.sin (ex / 2) * Real.sin (ey / 2) * Real.cos (ez / 2),
   Real.cos (ex / 2) * Real.cos (ey / 2) * Real.cos (ez / 2)
     - Real.sin (ex / 2) * Real.sin (ey / 2) * Real.sin (ez / 2)⟩

/-- `THREE.Quaternion.setFromUnitVectors`; the float guard
`r < Number.EPSILON` is idealised to `r ≤ 0` (for unit input vectors the
guard fires exactly in the antipodal case). -/
def setFromUnitVectors (vFrom vTo : Vec3) : Quat :=
  quatNormalize
    (if vFrom.x * vTo.x + vFrom.y * vTo.y + vFrom.z * vTo.z + 1 ≤ 0 then
      (if |vFrom.z| < |vFrom.x| then ⟨-vFrom.y, vFrom.x, 0, 0⟩
       else ⟨0, -vFrom.z, vFrom.y, 0⟩)
    else
      ⟨vFrom.y * vTo.z - vFrom.z * vTo.y,
       vFrom.z * vTo.x - vFrom.x * vTo.z,
       vFrom.x * vTo.y - vFrom.y * vTo.x,
       vFrom.x * vTo.x + vFrom.y * vTo.y + vFrom.z * vTo.z + 1⟩)

/-- JavaScript `Math.atan2` (signed zeros ignored). -/
def atan2 (y x : ℝ) : ℝ :=
  if 0 < x then Real.arctan (y / x)
  else if x < 0 then
    (if 0 ≤ y then Real.arctan (y / x) + Real.pi else Real.arctan (y / x) - Real.pi)
  else if 0 < y then Real.pi / 2
  else if y < 0 then -(Real.pi / 2)
  else 0

/-- Degrees-to-radians factor (`DEG2RAD` of `constants.js`). -/
def DEG2RAD : ℝ := Real.pi / 180

/-- The inputs of `computeSSW` (`ssw.js` lines 22-23) together with the
configuration constants `R`, `SSW_ROTATION_STEPS` (`steps`), `SSW_BINS`
(`bins`), `SSW_SLICE_COUNT` (`sliceCount`) and `SEAM_TUBE_RADIUS`
(`tubeRadius`) that `ssw.js` imports from `constants.js`; the seam-point
buffer is modelled as a list of 3-vectors. -/
@[ext]
structure SSWInput where
  seamPts : List Vec3
  orientX : ℝ
  orientY : ℝ
  orientZ : ℝ
  spinDirection : ℝ
  gyroAngle : ℝ
  alphaFrontDeg : ℝ
  inducedZoneDeg : ℝ
  inducedStartDeg : ℝ
  naturalZoneDeg : ℝ
  alphaBackDeg : ℝ
  R : ℝ
  steps : ℕ
  bins : ℕ
  sliceCount : ℕ
  tubeRadius : ℝ

/-- `zDirectSepStart` (`ssw.js` line 26). -/
def zDirectSepStart (p : SSWInput) : ℝ := p.R * Real.sin (p.alphaFrontDeg * DEG2RAD)

/-- `zInducedZone` (`ssw.js` line 27). -/
def zInducedZone (p : SSWInput) : ℝ := p.R * Real.sin (p.inducedZoneDeg * DEG2RAD)

/-- `zInducedStart` (`ssw.js` line 28). -/
def zInducedStart (p : SSWInput) : ℝ := p.R * Real.sin (p.inducedStartDeg * DEG2RAD)

/-- `zNaturalZone` (`ssw.js` line 29). -/
def zNaturalZone (p : SSWInput) : ℝ := p.R * Real.sin (p.naturalZoneDeg * DEG2RAD)

/-- `zInducedEnd` (`ssw.js` line 30). -/
def zInducedEnd (p : SSWInput) : ℝ := p.R * Real.sin (p.alphaBackDeg * DEG2RAD)

/-- `zMin` (`ssw.js` line 33). -/
def zMin (p : SSWInput) : ℝ := min (zDirectSepStart p) (zInducedEnd p)

/-- `zMax` (`ssw.js` line 34). -/
def zMax (p : SSWInput) : ℝ := max (zDirectSepStart p) (zInducedEnd p)

/-- The z-coordinate of slice plane `s` (`ssw.js` lines 37-40). -/
def zPlane (p : SSWInput) (s : ℕ) : ℝ :=
  zMin p + (zMax p - zMin p) *
    (if p.sliceCount = 1 then 1 / 2 else (s : ℝ) / ((p.sliceCount : ℝ) - 1))

/-- `spinAxisDir` (`ssw.js` line 45). -/
def spinAxisDir (p : SSWInput) : Vec3 :=
  vecNormalize ⟨Real.cos p.gyroAngle * Real.cos p.spinDirection,
                Real.cos p.gyroAngle * Real.sin p.spinDirection,
                Real.sin p.gyroAngle⟩

/-- `spinAxisQuat` (`ssw.js` line 46). -/
def spinAxisQuat (p : SSWInput) : Quat := setFromUnitVectors ⟨1, 0, 0⟩ (spinAxisDir p)

/-- `initQuat` (`ssw.js` line 47). -/
def initQuat (p : SSWInput) : Quat := setFromEuler p.orientX p.orientY p.orientZ

/-- `epsilon` (`ssw.js` line 54). -/
def epsilon (p : SSWInput) : ℝ := p.tubeRadius * 1.5

/-- `judgmentAngle` (`ssw.js` line 61). -/
def judgmentAngle (p : SSWInput) : ℝ := p.spinDirection + Real.pi / 2

/-- `L_bin` (`ssw.js` line 62); `Math.round` rounds half toward plus
infinity, as does Mathlib's `round`. -/
def L_bin (p : SSWInput) : ℤ := round (judgmentAngle p / (2 * Real.pi) * (p.bins : ℝ))

/-- The spin angle of rotation step `step` (`ssw.js` line 67). -/
def stepAngle (p : SSWInput) (step : ℕ) : ℝ :=
  ((step : ℝ) / (p.steps : ℝ)) * (2 * Real.pi)

/-- `spinQuat` (`ssw.js` line 68). -/
def spinQuat (p : SSWInput) (step : ℕ) : Quat :=
  setFromAxisAngle ⟨1, 0, 0⟩ (stepAngle p step)

/-- `fullQuat` (`ssw.js` lines 69-70): `spinAxisQuat * (spinQuat * initQuat)`. -/
def fullQuat (p : SSWInput) (step : ℕ) : Quat :=
  quatMultiply (spinAxisQuat p) (quatMultiply (spinQuat p step) (initQuat p))

/-- The world-space position of a seam point at a rotation step
(`ssw.js` line 76). -/
def transformedPoint (p : SSWInput) (step : ℕ) (pt : Vec3) : Vec3 :=
  applyQuaternion (fullQuat p step) pt

/-- The angular position of a transformed point, normalized into
`[0, 2 * pi)` (`ssw.js` lines 81-82 and 127-128). -/
def pointAngle (v : Vec3) : ℝ :=
  if atan2 v.y v.x < 0 then atan2 v.y v.x + 2 * Real.pi else atan2 v.y v.x

/-- The angular bin of a transformed point (`ssw.js` line 83); the
JavaScript `%` is the truncating remainder `Int.tmod`. -/
def binOf (p : SSWInput) (v : Vec3) : ℕ :=
  (Int.tmod (Int.floor (pointAngle v / (2 * Real.pi) * (p.bins : ℝ))) (p.bins : ℤ)).toNat

/-- The contribution weight of a z-position (`ssw.js` lines 89-102, and the
identical computation at lines 110-124): `0` outside the open judgment
zone; the distance to `zInducedEnd` inside the direct-separation sub-zone;
otherwise the constant width of the induced zone. -/
def contributionWeightAt (p : SSWInput) (z : ℝ) : ℝ :=
  if min (zDirectSepStart p) (zInducedEnd p) < z ∧ z < max (zDirectSepStart p) (zInducedEnd p) then
    (if min (zDirectSepStart p) (zInducedStart p) ≤ z ∧ z ≤ max (zDirectSepStart p) (zInducedStart p)
     then |z - zInducedEnd p|
     else |zInducedZone p - zInducedEnd p|)
  else 0

/-- The body of the slice loop for one seam point (`ssw.js` lines 80-106):
when the point is within `epsilon` of slice `s`, `present[idx] = 1` is
`Function.update` with `1` and the contribution cell is increased only when
the slice contribution is positive, exactly as in the source. -/
def sliceBody (p : SSWInput) (step : ℕ) (pt : Vec3) (st2 : (ℕ → ℕ) × (ℕ → ℝ)) (s : ℕ) :
    (ℕ → ℕ) × (ℕ → ℝ) :=
  if |(transformedPoint p step pt).z - zPlane p s| < epsilon p then
    (Function.update st2.1 (s * p.bins + binOf p (transformedPoint p step pt)) 1,
     if 0 < contributionWeightAt p (zPlane p s) then
       Function.update st2.2 (s * p.bins + binOf p (transformedPoint p step pt))
         (st2.2 (s * p.bins + binOf p (transformedPoint p step pt))
           + contributionWeightAt p (zPlane p s))
     else st2.2)
  else st2

/-- Per-point update of the per-step presence flags and of the contribution
accumulator over all slices (`ssw.js` lines 79-107). -/
def sliceUpdate (p : SSWInput) (step : ℕ) (pt : Vec3) (st : (ℕ → ℕ) × (ℕ → ℝ)) :
    (ℕ → ℕ) × (ℕ → ℝ) :=
  (List.range p.sliceCount).foldl (sliceBody p step pt) st

/-- One rotation step over all seam points (`ssw.js` lines 72-135): the
presence flags start from all zeros (`present.fill(0)`), the contribution
accumulator `contrib0` is carried over from the previous steps. -/
def stepScan (p : SSWInput) (step : ℕ) (contrib0 : ℕ → ℝ) : (ℕ → ℕ) × (ℕ → ℝ) :=
  p.seamPts.foldl (fun st pt => sliceUpdate p step pt st) (fun _ => 0, contrib0)

/-- The body of the rotation-step loop (`ssw.js` lines 66-140): run one
step, add the per-step presence flags into the raw presence histogram
(`histData[k] += present[k]`) and thread the contribution accumulator. -/
def scanBody (p : SSWInput) (acc : (ℕ → ℝ) × (ℕ → ℝ)) (step : ℕ) : (ℕ → ℝ) × (ℕ → ℝ) :=
  (fun k => acc.1 k + ((stepScan p step acc.2).1 k : ℝ), (stepScan p step acc.2).2)

/-- All rotation steps (`ssw.js` lines 66-140). -/
def scanState (p : SSWInput) : (ℕ → ℝ) × (ℕ → ℝ) :=
  (List.range p.steps).foldl (scanBody p) (fun _ => 0, fun _ => 0)

/-- The normalized presence histogram data (`ssw.js` lines 146-148). -/
def histData (p : SSWInput) (k : ℕ) : ℝ := (scanState p).1 k / (p.steps : ℝ)

/-- The normalized contribution histogram data (`ssw.js` lines 151-153). -/
def contribData (p : SSWInput) (k : ℕ) : ℝ := (scanState p).2 k / (p.steps : ℝ)

/-- `histograms[s][b]` (`ssw.js` line 159). -/
def histogramVal (p : SSWInput) (s b : ℕ) : ℝ := histData p (s * p.bins + b)

/-- `contribHistograms[s][b]` (`ssw.js` line 160). -/
def contribHistVal (p : SSWInput) (s b : ℕ) : ℝ := contribData p (s * p.bins + b)

/-- `combinedHist[b]` (`ssw.js` lines 164-174): slice-average of the
per-slice presence histograms. -/
def combinedHist (p : SSWInput) (b : ℕ) : ℝ :=
  (∑ s in Finset.range p.sliceCount, histogramVal p s b) / (p.sliceCount : ℝ)

/-- `combinedContrib[b]` (`ssw.js` lines 165-174). -/
def combinedContrib (p : SSWInput) (b : ℕ) : ℝ :=
  (∑ s in Finset.range p.sliceCount, contribHistVal p s b) / (p.sliceCount : ℝ)

/-- The SSW-effect contribution of one seam point at one rotation step
(`ssw.js` lines 109-134), as the pair of increments to `effectSumA` and
`effectSumB`. -/
def effectDelta (p : SSWInput) (step : ℕ) (pt : Vec3) : ℝ × ℝ :=
  if min (zDirectSepStart p) (zInducedEnd p) < (transformedPoint p step pt).z
      ∧ (transformedPoint p step pt).z < max (zDirectSepStart p) (zInducedEnd p) then
    (if 0 ≤ Real.sin (pointAngle (transformedPoint p step pt) - judgmentAngle p) then
      ((if min (zDirectSepStart p) (zInducedStart p) ≤ (transformedPoint p step pt).z
            ∧ (transformedPoint p step pt).z ≤ max (zDirectSepStart p) (zInducedStart p)
        then |(transformedPoint p step pt).z - zInducedEnd p|
        else |zInducedZone p - zInducedEnd p|) / (p.steps : ℝ), 0)
     else
      (0, (if min (zDirectSepStart p) (zInducedStart p) ≤ (transformedPoint p step pt).z
            ∧ (transformedPoint p step pt).z ≤ max (zDirectSepStart p) (zInducedStart p)
        then |(transformedPoint p step pt).z - zInducedEnd p|
        else |zInducedZone p - zInducedEnd p|) / (p.steps : ℝ)))
  else (0, 0)

/-- `effectSumA` (`ssw.js` lines 64 and 132). -/
def effectSumA (p : SSWInput) : ℝ :=
  ∑ step in Finset.range p.steps, (p.seamPts.map fun pt => (effectDelta p step pt).1).sum

/-- `effectSumB` (`ssw.js` lines 64 and 133). -/
def effectSumB (p : SSWInput) : ℝ :=
  ∑ step in Finset.range p.steps, (p.seamPts.map fun pt => (effectDelta p step pt).2).sum

/-- `sswEffectIndex` (`ssw.js` line 143). -/
def sswEffectIndex (p : SSWInput) : ℝ := |effectSumA p - effectSumB p|

/-- The bin-center angle used by the reducer (`ssw.js` lines 184 and 196). -/
def binAngle (p : SSWInput) (i : ℕ) : ℝ := ((i : ℝ) / (p.bins : ℝ)) * (2 * Real.pi)

/-- The side indicator of bin `i` relative to the judgment line
(`ssw.js` lines 185 and 129). -/
def sideOf (p : SSWInput) (i : ℕ) : ℝ := Real.sin (binAngle p i - judgmentAngle p)

/-- The side-A sum of the reducer loop (`ssw.js` lines 183-188), over an
arbitrary `B`-bin histogram `h` and judgment angle `ja`. -/
def sideSumA (B : ℕ) (ja : ℝ) (h : ℕ → ℝ) : ℝ :=
  ∑ i in Finset.range B,
    if 0 ≤ Real.sin (((i : ℝ) / (B : ℝ)) * (2 * Real.pi) - ja) then h i else 0

/-- The side-B sum of the reducer loop (`ssw.js` lines 183-188). -/
def sideSumB (B : ℕ) (ja : ℝ) (h : ℕ → ℝ) : ℝ :=
  ∑ i in Finset.range B,
    if 0 ≤ Real.sin (((i : ℝ) / (B : ℝ)) * (2 * Real.pi) - ja) then 0 else h i

/-- `sumA` of the reducer (`ssw.js` lines 182-188), on the combined
presence histogram. -/
def sumA (p : SSWInput) : ℝ := sideSumA p.bins (judgmentAngle p) (combinedHist p)

/-- `sumB` of the reducer (`ssw.js` lines 182-188). -/
def sumB (p : SSWInput) : ℝ := sideSumB p.bins (judgmentAngle p) (combinedHist p)

/-- `asymmetryIndex` (`ssw.js` line 189). -/
def asymmetryIndex (p : SSWInput) : ℝ := |sumA p - sumB p|

/-- The mirror bin across the judgment line (`ssw.js` line 198):
`((2 * L_bin - i) % B + B) % B` with the JavaScript truncating remainder,
which is `Int.tmod`. -/
def mirrorBin (p : SSWInput) (i : ℕ) : ℕ :=
  (Int.tmod (Int.tmod (2 * L_bin p - (i : ℤ)) (p.bins : ℤ) + (p.bins : ℤ)) (p.bins : ℤ)).toNat

/-- The accumulated force vector x-component (`ssw.js` lines 194-206),
built from the combined contribution histogram. -/
def wx (p : SSWInput) : ℝ :=
  ∑ i in Finset.range p.bins,
    (combinedContrib p i - combinedContrib p (mirrorBin p i)) * Real.cos (binAngle p i)

/-- The accumulated force vector y-component (`ssw.js` lines 194-206). -/
def wy (p : SSWInput) : ℝ :=
  ∑ i in Finset.range p.bins,
    (combinedContrib p i - combinedContrib p (mirrorBin p i)) * Real.sin (binAngle p i)

/-- `arrowAngle` (`ssw.js` lines 211-212). -/
def arrowAngle (p : SSWInput) : ℝ :=
  if atan2 (-wy p) (-wx p) < 0 then atan2 (-wy p) (-wx p) + 2 * Real.pi
  else atan2 (-wy p) (-wx p)

/-- `maxContribution` (`ssw.js` line 177). -/
def maxContribution (p : SSWInput) : ℝ := |zDirectSepStart p - zNaturalZone p|

/-- The result object returned by `computeSSW` (`ssw.js` lines 215-222). -/
structure SSWResult where
  histograms : ℕ → ℕ → ℝ
  combined : ℕ → ℝ
  contribHistograms : ℕ → ℕ → ℝ
  combinedContrib : ℕ → ℝ
  asymmetryIndex : ℝ
  arrowAngle : ℝ
  arrowWidth : ℝ
  numSlices : ℕ
  zPlanes : ℕ → ℝ
  sswEffectIndex : ℝ
  maxContribution : ℝ
  effectSumA : ℝ
  effectSumB : ℝ

/-- `computeSSW` (`ssw.js` lines 22-223), assembled from the definitions
above. -/
def computeSSW (p : SSWInput) : SSWResult :=
  { histograms := fun s b => histogramVal p s b
    combined := fun b => combinedHist p b
    contribHistograms := fun s b => contribHistVal p s b
    combinedContrib := fun b => combinedContrib p b
    asymmetryIndex := asymmetryIndex p
    arrowAngle := arrowAngle p
    arrowWidth := Real.pi / 4
    numSlices := p.sliceCount
    zPlanes := fun s => zPlane p s
    sswEffectIndex := sswEffectIndex p
    maxContribution := maxContribution p
    effectSumA := effectSumA p
    effectSumB := effectSumB p }

/-- The number of seam points that, at rotation step `step`, land within
`epsilon` of slice `s` and fall into angular bin `b` (the per-point hit
condition of `ssw.js` lines 80-84). -/
def cellHits (p : SSWInput) (step s b : ℕ) : ℕ :=
  p.seamPts.countP fun pt =>
    decide (|(transformedPoint p step pt).z - zPlane p s| < epsilon p
      ∧ binOf p (transformedPoint p step pt) = b)

end

/-! Coordinator state machine (`src/unnamed/part_001`, second document,
lines 143-206): the main-thread bookkeeping `isComputing` /
`pendingRequest` around the SSW worker.  Requests are abstracted to
natural numbers. -/

/-- The coordinator bookkeeping: `isComputing` and the one-slot
`pendingRequest`. -/
structure CoordState where
  isComputing : Bool
  pending : Option ℕ
deriving DecidableEq

/-- `requestSSW` (`part_001` lines 199-206): while a computation is in
flight, the request overwrites the pending slot and nothing is posted;
otherwise the in-flight flag is raised and the request is posted to the
worker.  The second component lists the requests posted. -/
def requestSSW (s : CoordState) (d : ℕ) : CoordState × List ℕ :=
  if s.isComputing then (⟨s.isComputing, some d⟩, [])
  else (⟨true, s.pending⟩, [d])

/-- `sswWorker.onmessage` (`part_001` lines 148-195): clears the in-flight
flag, and then dispatches the pending request (if any) through
`requestSSW`, clearing the slot. -/
def onmessage (s : CoordState) : CoordState × List ℕ :=
  match s.pending with
  | some d =>
    (⟨(requestSSW ⟨false, s.pending⟩ d).1.isComputing, none⟩,
     (requestSSW ⟨false, s.pending⟩ d).2)
  | none => (⟨false, s.pending⟩, [])

/-- Events the coordinator reacts to: a new request, a worker completion
message, and a worker-side exception.  The source registers only
`onmessage` on the worker — there is no `onerror` handler — so a
worker-side exception runs no main-thread code at all and leaves the
bookkeeping untouched. -/
inductive CoordEvent where
  | req : ℕ → CoordEvent
  | done : CoordEvent
  | fail : CoordEvent
deriving DecidableEq

/-- One coordinator transition. -/
def coordStep (s : CoordState) : CoordEvent → CoordState × List ℕ
  | CoordEvent.req d => requestSSW s d
  | CoordEvent.done => onmessage s
  | CoordEvent.fail => (s, [])

/-- Run the coordinator over a list of events, collecting every request
posted to the worker in order. -/
def coordRun (evs : List CoordEvent) : CoordState × List ℕ :=
  evs.foldl (fun acc ev => ((coordStep acc.1 ev).1, acc.2 ++ (coordStep acc.1 ev).2))
    (⟨false, none⟩, [])

/-! Trend-sweep deduplication (`part_001` lines 197 and 336-350).  The
parameter record collected by `runSSW` is modelled with rational slider
values; `JSON.stringify` of the fixed-shape key object is modelled by the
injective tuple of the nine non-gyro parameters. -/

/-- The parameters collected by `runSSW` (`part_001` lines 322-328). -/
structure UIParams where
  orientX : ℚ
  orientY : ℚ
  orientZ : ℚ
  spinDirection : ℚ
  gyroAngle : ℚ
  alphaFrontDeg : ℚ
  inducedZoneDeg : ℚ
  inducedStartDeg : ℚ
  naturalZoneDeg : ℚ
  alphaBackDeg : ℚ
deriving DecidableEq

/-- The serialized content key of a sweep (`part_001` lines 336-340):
`JSON.stringify` of a fixed-shape object is an injective encoding of its
nine values, modelled by this record. -/
structure CurveKey where
  ox : ℚ
  oy : ℚ
  oz : ℚ
  sd : ℚ
  af : ℚ
  iz : ℚ
  ist : ℚ
  nz : ℚ
  ab : ℚ
deriving DecidableEq

/-- The content key of a sweep (`part_001` lines 336-340): the nine
non-gyro parameters, in the order they are serialized. -/
def curveParamsKey (p : UIParams) : CurveKey :=
  ⟨p.orientX, p.orientY, p.orientZ, p.spinDirection, p.alphaFrontDeg,
   p.inducedZoneDeg, p.inducedStartDeg, p.naturalZoneDeg, p.alphaBackDeg⟩

/-- The sweep bookkeeping: `lastCurveParams` (`part_001` line 197, `null`
initially) and the `updateCurve` flag (`part_001` line 233). -/
structure SweepState where
  lastCurveParams : Option CurveKey
  updateCurve : Bool
deriving DecidableEq

/-- The curve-dispatch part of `runSSW` (`part_001` lines 342-350): when
the key differs from `lastCurveParams` and `updateCurve` is set, the key
is recorded and a sweep is dispatched (`Bool` result `true`); in every
other case no sweep is dispatched. -/
def runSSWCurve (s : SweepState) (p : UIParams) : SweepState × Bool :=
  if some (curveParamsKey p) ≠ s.lastCurveParams then
    (if s.updateCurve then (⟨some (curveParamsKey p), false⟩, true) else (s, false))
  else (⟨s.lastCurveParams, false⟩, false)

/-! Concrete inputs used by the counterexamples and witnesses. -/

/-- A concrete input whose five boundary angles are all equal (to 0): one
seam point on the +x axis, identity orientation, spin direction 0, gyro 0,
one rotation step, 4 bins, one slice. -/
noncomputable def cexAllEqual : SSWInput :=
  ⟨[⟨1, 0, 0⟩], 0, 0, 0, 0, 0, 0, 0, 0, 0, 0, 1, 1, 4, 1, 1⟩

/-- A concrete input whose combined contribution histogram is identically
zero (hence judgment-line symmetric) while the effect sums are not
balanced: one seam point at height 1/2, boundary angles -90, 0, -90, 0, 90
degrees, one rotation step, 4 bins, one slice, tube radius 1/10. -/
noncomputable def cexSymmetric : SSWInput :=
  ⟨[⟨1, 0, 1 / 2⟩], 0, 0, 0, 0, 0, -90, 0, -90, 0, 90, 1, 1, 4, 1, 1 / 10⟩

/-- Concrete slider parameters for the sweep-deduplication witness. -/
def sweepParamsBase : UIParams := ⟨0, 0, 0, 0, 0, 0, 0, 0, 0, 0⟩

/-- The same slider parameters with a different gyro angle (the only field
excluded from the sweep content key). -/
def sweepParamsGyro : UIParams := ⟨0, 0, 0, 0, 1, 0, 0, 0, 0, 0⟩

/-! Theorems. -/

/-- C2: for every combined presence histogram and every judgment-line
angle, the two side sums computed by the reducer form an exhaustive and
disjoint partition of the bins: `sumA + sumB` equals the sum of all bins,
because each bin goes to side A exactly when `sin(binAngle - ja) ≥ 0` and
to side B otherwise; instantiated to the histogram reducer of
`computeSSW`. -/
theorem side_sums_partition_combined_histogram :
    (∀ (B : ℕ) (ja : ℝ) (h : ℕ → ℝ),
      sideSumA B ja h + sideSumB B ja h = ∑ i in Finset.range B, h i)
    ∧ ∀ p : SSWInput, sumA p + sumB p = ∑ i in Finset.range p.bins, combinedHist p i := by
  have key : ∀ (B : ℕ) (ja : ℝ) (h : ℕ → ℝ),
      sideSumA B ja h + sideSumB B ja h = ∑ i in Finset.range B, h i := by
    intro B ja h
    unfold sideSumA sideSumB
    rw [← Finset.sum_add_distrib]
    apply Finset.sum_congr rfl
    intro i _
    by_cases hc : 0 ≤ Real.sin (((i : ℝ) / (B : ℝ)) * (2 * Real.pi) - ja)
    · rw [if_pos hc, if_pos hc, add_zero]
    · rw [if_neg hc, if_neg hc, zero_add]
  exact ⟨key, fun p => key p.bins (judgmentAngle p) (combinedHist p)⟩

/-- C6: `computeSSW` is deterministic — two calls with identical seam
points, identical parameter values and identical rotation resolution agree
in every returned field; the embedding is a pure function of the input
record, so equal inputs give equal results. -/
theorem computeSSW_deterministic (p q : SSWInput)
    (h1 : p.seamPts = q.seamPts) (h2 : p.orientX = q.orientX) (h3 : p.orientY = q.orientY)
    (h4 : p.orientZ = q.orientZ) (h5 : p.spinDirection = q.spinDirection)
    (h6 : p.gyroAngle = q.gyroAngle) (h7 : p.alphaFrontDeg = q.alphaFrontDeg)
    (h8 : p.inducedZoneDeg = q.inducedZoneDeg) (h9 : p.inducedStartDeg = q.inducedStartDeg)
    (h10 : p.naturalZoneDeg = q.naturalZoneDeg) (h11 : p.alphaBackDeg = q.alphaBackDeg)
    (h12 : p.R = q.R) (h13 : p.steps = q.steps) (h14 : p.bins = q.bins)
    (h15 : p.sliceCount = q.sliceCount) (h16 : p.tubeRadius = q.tubeRadius) :
    (computeSSW p).histograms = (computeSSW q).histograms
    ∧ (computeSSW p).combined = (computeSSW q).combined
    ∧ (computeSSW p).contribHistograms = (computeSSW q).contribHistograms
    ∧ (computeSSW p).combinedContrib = (computeSSW q).combinedContrib
    ∧ (computeSSW p).asymmetryIndex = (computeSSW q).asymmetryIndex
    ∧ (computeSSW p).sswEffectIndex = (computeSSW q).sswEffectIndex
    ∧ (computeSSW p).arrowAngle = (computeSSW q).arrowAngle
    ∧ (computeSSW p).effectSumA = (computeSSW q).effectSumA
    ∧ (computeSSW p).effectSumB = (computeSSW q).effectSumB := by
  have hpq : p = q :=
    SSWInput.ext h1 h2 h3 h4 h5 h6 h7 h8 h9 h10 h11 h12 h13 h14 h15 h16
  subst hpq
  exact ⟨rfl, rfl, rfl, rfl, rfl, rfl, rfl, rfl, rfl⟩

/-- Witness for C6 at a concrete input. -/
theorem computeSSW_deterministic_witness :
    (computeSSW cexAllEqual).histograms = (computeSSW cexAllEqual).histograms
    ∧ (computeSSW cexAllEqual).combined = (computeSSW cexAllEqual).combined
    ∧ (computeSSW cexAllEqual).contribHistograms = (computeSSW cexAllEqual).contribHistograms
    ∧ (computeSSW cexAllEqual).combinedContrib = (computeSSW cexAllEqual).combinedContrib
    ∧ (computeSSW cexAllEqual).asymmetryIndex = (computeSSW cexAllEqual).asymmetryIndex
    ∧ (computeSSW cexAllEqual).sswEffectIndex = (computeSSW cexAllEqual).sswEffectIndex
    ∧ (computeSSW cexAllEqual).arrowAngle = (computeSSW cexAllEqual).arrowAngle
    ∧ (computeSSW cexAllEqual).effectSumA = (computeSSW cexAllEqual).effectSumA
    ∧ (computeSSW cexAllEqual).effectSumB = (computeSSW cexAllEqual).effectSumB :=
  computeSSW_deterministic cexAllEqual cexAllEqual rfl rfl rfl rfl rfl rfl rfl rfl
    rfl rfl rfl rfl rfl rfl rfl rfl

/-- C7: the coordinator keeps at most one computation in flight and a
one-slot pending queue.  A request arriving while a computation is
executing only overwrites the pending slot (nothing is posted), and in the
scenario R1, R2, R3 (R2 and R3 arriving while R1 executes) followed by R1
finishing, exactly R1 and then R3 are posted to the worker — R2 is never
executed. -/
theorem coordinator_one_slot_queue :
    (∀ (s : CoordState) (d : ℕ), s.isComputing = true →
      requestSSW s d = (⟨true, some d⟩, []))
    ∧ coordRun [CoordEvent.req 1, CoordEvent.req 2, CoordEvent.req 3, CoordEvent.done]
      = (⟨true, none⟩, [1, 3]) := by
  constructor
  · intro s d h
    simp [requestSSW, h]
  · decide

/-- Witness for C7: a request arriving while computing overwrites the
previously queued request 9 with 5 and posts nothing. -/
theorem coordinator_one_slot_queue_witness :
    requestSSW ⟨true, some 9⟩ 5 = (⟨true, some 5⟩, []) :=
  coordinator_one_slot_queue.1 ⟨true, some 9⟩ 5 rfl

/-- C8: the trend sweep is deduplicated by the content key over the nine
non-gyro parameters: when the key equals `lastCurveParams` no sweep is
dispatched, and after any dispatched sweep a second request with
identical non-gyro parameters (any gyro angle, any `updateCurve` flag)
dispatches nothing. -/
theorem trend_sweep_dedup :
    (∀ (s : SweepState) (p : UIParams),
      s.lastCurveParams = some (curveParamsKey p) → (runSSWCurve s p).2 = false)
    ∧ ∀ (s : SweepState) (p : UIParams), (runSSWCurve s p).2 = true →
      ∀ (u : Bool) (q : UIParams), curveParamsKey q = curveParamsKey p →
        (runSSWCurve ⟨(runSSWCurve s p).1.lastCurveParams, u⟩ q).2 = false := by
  constructor
  · intro s p h
    simp [runSSWCurve, h]
  · intro s p hdisp u q hk
    have h1 : (runSSWCurve s p).1.lastCurveParams = some (curveParamsKey p) := by
      unfold runSSWCurve at hdisp ⊢
      by_cases hne : some (curveParamsKey p) ≠ s.lastCurveParams
      · by_cases hu : s.updateCurve
        · simp [hne, hu]
        · simp [hne, hu] at hdisp
      · simp [hne] at hdisp
    rw [h1]
    unfold runSSWCurve
    rw [hk]
    simp

/-- Witness for C8: a first sweep for the base parameters dispatches, and a
second request differing only in the gyro angle dispatches nothing. -/
theorem trend_sweep_dedup_witness :
    (runSSWCurve ⟨(runSSWCurve ⟨none, true⟩ sweepParamsBase).1.lastCurveParams, true⟩
      sweepParamsGyro).2 = false :=
  trend_sweep_dedup.2 ⟨none, true⟩ sweepParamsBase (by decide) true sweepParamsGyro (by decide)

/-- C9 (divergence witness): the source registers no error handler on the
SSW worker, so a worker-side exception runs no main-thread code.  After R1
is posted and the worker fails, the in-flight flag is still set and a
subsequent request R2 is only queued, never posted: the run dispatches
exactly [1]. -/
theorem coordinator_stuck_after_worker_failure :
    coordRun [CoordEvent.req 1, CoordEvent.fail, CoordEvent.req 2]
      = (⟨true, some 2⟩, [1]) := by decide

/-- C3 (amended): if the combined contribution histogram is symmetric
about the judgment line then the accumulated force vector `(wx, wy)` is
`(0, 0)`.  (The returned `sswEffectIndex` need not be 0 — see the
counterexample.) -/
theorem symmetric_contrib_force_vector_zero (p : SSWInput)
    (hsym : ∀ i < p.bins, combinedContrib p i = combinedContrib p (mirrorBin p i)) :
    wx p = 0 ∧ wy p = 0 := by
  constructor
  · unfold wx
    apply Finset.sum_eq_zero
    intro i hi
    rw [hsym i (Finset.mem_range.mp hi), sub_self, zero_mul]
  · unfold wy
    apply Finset.sum_eq_zero
    intro i hi
    rw [hsym i (Finset.mem_range.mp hi), sub_self, zero_mul]

/-- C4 (amended): when all five boundary angles are equal, the judgment
zone has zero width, the contribution weight is 0 for every z and the
hemisphere effect sums and the returned `sswEffectIndex` are exactly 0.
(The returned `asymmetryIndex` need not be 0, because seam presence is
still accumulated — see the counterexample.) -/
theorem equal_boundary_zero_weight_and_effect (p : SSWInput)
    (h1 : p.alphaFrontDeg = p.inducedZoneDeg) (h2 : p.inducedZoneDeg = p.inducedStartDeg)
    (h3 : p.inducedStartDeg = p.naturalZoneDeg) (h4 : p.naturalZoneDeg = p.alphaBackDeg) :
    (∀ z : ℝ, contributionWeightAt p z = 0)
    ∧ (computeSSW p).effectSumA = 0 ∧ (computeSSW p).effectSumB = 0
    ∧ (computeSSW p).sswEffectIndex = 0 := by
  have hz : zInducedEnd p = zDirectSepStart p := by
    unfold zInducedEnd zDirectSepStart
    rw [h1, h2, h3, h4]
  have hnot : ∀ z : ℝ,
      ¬(min (zDirectSepStart p) (zInducedEnd p) < z
        ∧ z < max (zDirectSepStart p) (zInducedEnd p)) := by
    intro z hc
    rw [hz, min_self, max_self] at hc
    exact lt_irrefl _ (hc.1.trans hc.2)
  have hw : ∀ z : ℝ, contributionWeightAt p z = 0 := by
    intro z
    unfold contributionWeightAt
    rw [if_neg (hnot z)]
  have hd : ∀ (step : ℕ) (pt : Vec3), effectDelta p step pt = (0, 0) := by
    intro step pt
    unfold effectDelta
    rw [if_neg (hnot _)]
  have hA : effectSumA p = 0 := by
    unfold effectSumA
    apply Finset.sum_eq_zero
    intro step _
    simp [hd]
  have hB : effectSumB p = 0 := by
    unfold effectSumB
    apply Finset.sum_eq_zero
    intro step _
    simp [hd]
  refine ⟨hw, ?_, ?_, ?_⟩
  · simpa [computeSSW] using hA
  · simpa [computeSSW] using hB
  · simp [computeSSW, sswEffectIndex, hA, hB]

/-- Witness for C4 (amended) at a concrete input with all five boundary
angles equal to 0. -/
theorem equal_boundary_zero_weight_and_effect_witness :
    (∀ z : ℝ, contributionWeightAt cexAllEqual z = 0)
    ∧ (computeSSW cexAllEqual).effectSumA = 0 ∧ (computeSSW cexAllEqual).effectSumB = 0
    ∧ (computeSSW cexAllEqual).sswEffectIndex = 0 :=
  equal_boundary_zero_weight_and_effect cexAllEqual rfl rfl rfl rfl

/-- Normalizing a quaternion always yields a unit quaternion (the zero
quaternion is sent to the identity). -/
theorem quatNormalize_unit (q : Quat) : normSq (quatNormalize q) = 1 := by
  unfold quatNormalize
  by_cases h : Real.sqrt (normSq q) = 0
  · rw [if_pos h]
    unfold normSq
    norm_num
  · rw [if_neg h]
    have hnn : 0 ≤ normSq q := by unfold normSq; positivity
    have hS0 : normSq q ≠ 0 := by
      intro h0
      exact h (by rw [h0, Real.sqrt_zero])
    have key : normSq ⟨q.x / Real.sqrt (normSq q), q.y / Real.sqrt (normSq q),
        q.z / Real.sqrt (normSq q), q.w / Real.sqrt (normSq q)⟩
        = normSq q / Real.sqrt (normSq q) ^ 2 := by
      unfold normSq
      simp only []
      ring
    rw [key, Real.sq_sqrt hnn, div_self hS0]

/-- On a unit quaternion, the optimized `applyQuaternion` formula agrees
with the quaternion rotation matrix. -/
theorem apply_eq_rot (q : Quat) (v : Vec3) (h : normSq q = 1) :
    applyQuaternion q v = rotFormula q v := by
  unfold normSq at h
  unfold applyQuaternion rotFormula
  ext <;> simp only [] <;>
    [linear_combination (-(v.x)) * h; linear_combination (-(v.y)) * h;
     linear_combination (-(v.z)) * h]

/-- The quaternion rotation matrix is multiplicative: rotating by a product
is rotating by the right factor, then by the left factor. -/
theorem rot_mul (a b : Quat) (v : Vec3) :
    rotFormula (quatMultiply a b) v = rotFormula a (rotFormula b v) := by
  unfold rotFormula quatMultiply
  ext <;> simp only [] <;> ring

/-- The squared norm is multiplicative. -/
theorem normSq_mul (a b : Quat) : normSq (quatMultiply a b) = normSq a * normSq b := by
  unfold normSq quatMultiply
  simp only []
  ring

/-- Applying a product of unit quaternions applies the right factor first,
then the left factor. -/
theorem apply_mul (a b : Quat) (v : Vec3) (ha : normSq a = 1) (hb : normSq b = 1) :
    applyQuaternion (quatMultiply a b) v = applyQuaternion a (applyQuaternion b v) := by
  rw [apply_eq_rot _ _ (by rw [normSq_mul, ha, hb, one_mul]),
      apply_eq_rot b v hb, apply_eq_rot a _ ha, rot_mul]

/-- The Euler-angle quaternion is a unit quaternion. -/
theorem normSq_setFromEuler (ex ey ez : ℝ) : normSq (setFromEuler ex ey ez) = 1 := by
  unfold normSq setFromEuler
  simp only []
  linear_combination
    (Real.sin (ey / 2) ^ 2 + Real.cos (ey / 2) ^ 2)
        * (Real.sin (ez / 2) ^ 2 + Real.cos (ez / 2) ^ 2)
        * Real.sin_sq_add_cos_sq (ex / 2)
      + (Real.sin (ez / 2) ^ 2 + Real.cos (ez / 2) ^ 2) * Real.sin_sq_add_cos_sq (ey / 2)
      + Real.sin_sq_add_cos_sq (ez / 2)

/-- The axis-angle quaternion about the reference axis is a unit
quaternion. -/
theorem normSq_setFromAxisAngleX (t : ℝ) : normSq (setFromAxisAngle ⟨1, 0, 0⟩ t) = 1 := by
  unfold normSq setFromAxisAngle
  simp only []
  linear_combination Real.sin_sq_add_cos_sq (t / 2)

/-- `setFromUnitVectors` always returns a unit quaternion. -/
theorem normSq_setFromUnitVectors (a b : Vec3) : normSq (setFromUnitVectors a b) = 1 := by
  unfold setFromUnitVectors
  exact quatNormalize_unit _

/-- `setFromUnitVectors` from the reference axis to a unit vector `u`
indeed rotates the reference axis onto `u`, in both branches of the
antipodal guard. -/
theorem setFromUnitVectors_apply_ref (u : Vec3) (hu : vecNormSq u = 1) :
    applyQuaternion (setFromUnitVectors ⟨1, 0, 0⟩ u) ⟨1, 0, 0⟩ = u := by
  unfold vecNormSq at hu
  unfold setFromUnitVectors
  simp only [one_mul, zero_mul, add_zero, zero_add, sub_zero, zero_sub]
  by_cases hc : u.x + 1 ≤ 0
  · have hx1 : -1 ≤ u.x := by nlinarith [sq_nonneg (u.x + 1), sq_nonneg u.y, sq_nonneg u.z]
    have hx : u.x = -1 := le_antisymm (by linarith) hx1
    have hy : u.y = 0 := by
      have h2 : u.y ^ 2 = 0 := by nlinarith [sq_nonneg u.z]
      exact pow_eq_zero_iff two_ne_zero |>.mp h2
    have hz : u.z = 0 := by
      have h2 : u.z ^ 2 = 0 := by nlinarith [sq_nonneg u.y]
      exact pow_eq_zero_iff two_ne_zero |>.mp h2
    rw [if_pos hc]
    rw [if_pos (by norm_num : |(Vec3.mk 1 0 0).z| < |(Vec3.mk 1 0 0).x|)]
    unfold quatNormalize
    have hn : normSq ⟨-(Vec3.mk 1 0 0).y, (Vec3.mk 1 0 0).x, 0, 0⟩ = 1 := by
      unfold normSq
      norm_num
    rw [hn]
    rw [if_neg (by rw [Real.sqrt_one]; norm_num)]
    rw [Real.sqrt_one]
    ext
    · unfold applyQuaternion
      simp only []
      rw [hx]
      norm_num
    · unfold applyQuaternion
      simp only []
      rw [hy]
      norm_num
    · unfold applyQuaternion
      simp only []
      rw [hz]
      norm_num
  · rw [if_neg hc]
    have hS : normSq ⟨0, -u.z, u.y, u.x + 1⟩ = 2 * u.x + 2 := by
      unfold normSq
      simp only []
      linear_combination hu
    have hSpos : (0:ℝ) < 2 * u.x + 2 := by linarith
    have hl0 : Real.sqrt (normSq ⟨0, -u.z, u.y, u.x + 1⟩) ≠ 0 := by
      rw [hS]
      exact ne_of_gt (Real.sqrt_pos.mpr hSpos)
    have hl2 : Real.sqrt (normSq ⟨0, -u.z, u.y, u.x + 1⟩) ^ 2 = 2 * u.x + 2 := by
      rw [Real.sq_sqrt (by rw [hS]; linarith : (0:ℝ) ≤ normSq ⟨0, -u.z, u.y, u.x + 1⟩), hS]
    unfold quatNormalize
    rw [if_neg hl0]
    ext
    · unfold applyQuaternion
      simp only []
      field_simp
      linear_combination (1 - u.x) * hl2 - 2 * hu
    · unfold applyQuaternion
      simp only []
      field_simp
      linear_combination (-(u.y)) * hl2
    · unfold applyQuaternion
      simp only []
      field_simp
      linear_combination (-(u.z)) * hl2

/-- The un-normalized spin-axis direction is already a unit vector. -/
theorem rawSpinDir_unit (p : SSWInput) :
    vecNormSq ⟨Real.cos p.gyroAngle * Real.cos p.spinDirection,
               Real.cos p.gyroAngle * Real.sin p.spinDirection,
               Real.sin p.gyroAngle⟩ = 1 := by
  unfold vecNormSq
  simp only []
  linear_combination (Real.cos p.gyroAngle) ^ 2 * Real.sin_sq_add_cos_sq p.spinDirection
    + Real.sin_sq_add_cos_sq p.gyroAngle

/-- `spinAxisDir` equals the raw direction vector (the normalization
divides by 1). -/
theorem spinAxisDir_eq (p : SSWInput) :
    spinAxisDir p = ⟨Real.cos p.gyroAngle * Real.cos p.spinDirection,
                     Real.cos p.gyroAngle * Real.sin p.spinDirection,
                     Real.sin p.gyroAngle⟩ := by
  unfold spinAxisDir vecNormalize
  have hlen : vecLength ⟨Real.cos p.gyroAngle * Real.cos p.spinDirection,
      Real.cos p.gyroAngle * Real.sin p.spinDirection, Real.sin p.gyroAngle⟩ = 1 := by
    unfold vecLength
    rw [rawSpinDir_unit p, Real.sqrt_one]
  rw [if_neg (by rw [hlen]; norm_num)]
  ext <;> simp only [] <;> rw [hlen, div_one]

/-- The spin-axis direction is a unit vector. -/
theorem spinAxisDir_unit (p : SSWInput) : vecNormSq (spinAxisDir p) = 1 := by
  rw [spinAxisDir_eq]
  exact rawSpinDir_unit p

/-- C5: at every sampling step the rotation applied to each seam point is
the composition Q_axis after (Q_step after Q_init): the point is first
rotated by the initial orientation (Euler XYZ), then by the per-step spin
(rotation by step/N * 2pi about the reference axis (1,0,0)), and last by
the spin-axis alignment, which maps (1,0,0) onto the normalized spin-axis
direction. -/
theorem transform_composition_order (p : SSWInput) (step : ℕ) (pt : Vec3) :
    transformedPoint p step pt
      = applyQuaternion (spinAxisQuat p)
          (applyQuaternion (spinQuat p step) (applyQuaternion (initQuat p) pt))
    ∧ fullQuat p step
      = quatMultiply (spinAxisQuat p) (quatMultiply (spinQuat p step) (initQuat p))
    ∧ spinQuat p step
      = setFromAxisAngle ⟨1, 0, 0⟩ (((step : ℝ) / (p.steps : ℝ)) * (2 * Real.pi))
    ∧ applyQuaternion (spinAxisQuat p) ⟨1, 0, 0⟩ = spinAxisDir p := by
  have hA : normSq (spinAxisQuat p) = 1 := normSq_setFromUnitVectors _ _
  have hSq : normSq (spinQuat p step) = 1 := normSq_setFromAxisAngleX _
  have hI : normSq (initQuat p) = 1 := normSq_setFromEuler _ _ _
  refine ⟨?_, rfl, rfl, ?_⟩
  · unfold transformedPoint fullQuat
    rw [apply_mul _ _ _ hA (by rw [normSq_mul, hSq, hI, one_mul]),
        apply_mul _ _ _ hSq hI]
  · unfold spinAxisQuat
    exact setFromUnitVectors_apply_ref _ (spinAxisDir_unit p)

/-- The normalized point angle is non-negative. -/
theorem pointAngle_nonneg (v : Vec3) : 0 ≤ pointAngle v := by
  unfold pointAngle
  by_cases h : atan2 v.y v.x < 0
  · rw [if_pos h]
    have hb : -(2 * Real.pi) < atan2 v.y v.x := by
      unfold atan2
      have hpi := Real.pi_pos
      have ha1 := Real.neg_pi_div_two_lt_arctan (v.y / v.x)
      have ha2 := Real.arctan_lt_pi_div_two (v.y / v.x)
      split_ifs <;> linarith
    linarith
  · rw [if_neg h]
    linarith [not_lt.mp h]

/-- The angular bin is always strictly below the bin count. -/
theorem binOf_lt (p : SSWInput) (v : Vec3) (hB : 0 < p.bins) : binOf p v < p.bins := by
  unfold binOf
  have h2pi : (0:ℝ) < 2 * Real.pi := by positivity
  have hang : (0:ℝ) ≤ pointAngle v / (2 * Real.pi) * (p.bins : ℝ) :=
    mul_nonneg (div_nonneg (pointAngle_nonneg v) h2pi.le) (Nat.cast_nonneg _)
  have hm : 0 ≤ Int.floor (pointAngle v / (2 * Real.pi) * (p.bins : ℝ)) :=
    Int.floor_nonneg.mpr hang
  have h1 : 0 ≤ Int.tmod (Int.floor (pointAngle v / (2 * Real.pi) * (p.bins : ℝ))) (p.bins : ℤ) :=
    Int.tmod_nonneg _ hm
  have h2 : Int.tmod (Int.floor (pointAngle v / (2 * Real.pi) * (p.bins : ℝ))) (p.bins : ℤ)
      < (p.bins : ℤ) := Int.tmod_lt_of_pos _ (by exact_mod_cast hB)
  omega

/-- Two in-range cells of the flattened histogram coincide only when both
the slice index and the bin index coincide. -/
theorem cell_index_inj {B s b t c : ℕ} (hb : b < B) (hc : c < B)
    (h : s * B + b = t * B + c) : s = t ∧ b = c := by
  have hB : 0 < B := lt_of_le_of_lt (Nat.zero_le b) hb
  have hbc : b = c := by
    have h1 : (s * B + b) % B = (t * B + c) % B := by rw [h]
    have e1 : s * B + b = B * s + b := by ring
    have e2 : t * B + c = B * t + c := by ring
    rw [e1, e2, Nat.mul_add_mod, Nat.mul_add_mod, Nat.mod_eq_of_lt hb,
        Nat.mod_eq_of_lt hc] at h1
    exact h1
  subst hbc
  have h2 : s * B = t * B := by omega
  exact ⟨Nat.eq_of_mul_eq_mul_right hB h2, rfl⟩

/-- The contribution weight is never negative (it is an absolute value or
zero). -/
theorem contributionWeightAt_nonneg (p : SSWInput) (z : ℝ) :
    0 ≤ contributionWeightAt p z := by
  unfold contributionWeightAt
  split_ifs <;> positivity

/-- One slice-loop iteration that misses the proximity test is a no-op. -/
theorem sliceBody_nohit (p : SSWInput) (step : ℕ) (pt : Vec3)
    (st2 : (ℕ → ℕ) × (ℕ → ℝ)) (m : ℕ)
    (hz : ¬ |(transformedPoint p step pt).z - zPlane p m| < epsilon p) :
    sliceBody p step pt st2 m = st2 := by
  unfold sliceBody
  rw [if_neg hz]

/-- One slice-loop iteration leaves every cell other than its own target
cell unchanged. -/
theorem sliceBody_other (p : SSWInput) (step : ℕ) (pt : Vec3)
    (st2 : (ℕ → ℕ) × (ℕ → ℝ)) (m s b : ℕ) (hb : b < p.bins)
    (hne2 : ¬(m = s ∧ binOf p (transformedPoint p step pt) = b)) :
    (sliceBody p step pt st2 m).1 (s * p.bins + b) = st2.1 (s * p.bins + b)
    ∧ (sliceBody p step pt st2 m).2 (s * p.bins + b) = st2.2 (s * p.bins + b) := by
  have hne : s * p.bins + b ≠ m * p.bins + binOf p (transformedPoint p step pt) := by
    intro he
    have hbinlt := binOf_lt p (transformedPoint p step pt) (lt_of_le_of_lt (Nat.zero_le b) hb)
    have hinj := cell_index_inj hb hbinlt he
    exact hne2 ⟨hinj.1.symm, hinj.2.symm⟩
  unfold sliceBody
  by_cases hz : |(transformedPoint p step pt).z - zPlane p m| < epsilon p
  · rw [if_pos hz]
    refine ⟨?_, ?_⟩
    · simp only []
      rw [Function.update_noteq hne]
    · simp only []
      by_cases hw : 0 < contributionWeightAt p (zPlane p m)
      · rw [if_pos hw, Function.update_noteq hne]
      · rw [if_neg hw]
  · rw [if_neg hz]
    exact ⟨rfl, rfl⟩

/-- One slice-loop iteration that hits its own cell sets the presence flag
to 1 and adds the slice weight to the contribution cell. -/
theorem sliceBody_hit (p : SSWInput) (step : ℕ) (pt : Vec3)
    (st2 : (ℕ → ℕ) × (ℕ → ℝ)) (s b : ℕ)
    (hz : |(transformedPoint p step pt).z - zPlane p s| < epsilon p)
    (hbin : binOf p (transformedPoint p step pt) = b) :
    (sliceBody p step pt st2 s).1 (s * p.bins + b) = 1
    ∧ (sliceBody p step pt st2 s).2 (s * p.bins + b)
      = st2.2 (s * p.bins + b) + contributionWeightAt p (zPlane p s) := by
  unfold sliceBody
  rw [if_pos hz]
  refine ⟨?_, ?_⟩
  · simp only []
    rw [hbin, Function.update_same]
  · simp only []
    by_cases hw : 0 < contributionWeightAt p (zPlane p s)
    · rw [if_pos hw, hbin, Function.update_same]
    · rw [if_neg hw]
      have hw0 : contributionWeightAt p (zPlane p s) = 0 :=
        le_antisymm (not_lt.mp hw) (contributionWeightAt_nonneg p _)
      rw [hw0, add_zero]

/-- A prefix of the slice loop that never reaches slice `s` leaves the cell
`(s, b)` of both accumulators unchanged. -/
theorem sliceFold_untouched (p : SSWInput) (step : ℕ) (pt : Vec3) (n s b : ℕ)
    (st : (ℕ → ℕ) × (ℕ → ℝ)) (hs : n ≤ s) (hb : b < p.bins) :
    ((List.range n).foldl (sliceBody p step pt) st).1 (s * p.bins + b) = st.1 (s * p.bins + b)
    ∧ ((List.range n).foldl (sliceBody p step pt) st).2 (s * p.bins + b)
      = st.2 (s * p.bins + b) := by
  induction n with
  | zero => exact ⟨rfl, rfl⟩
  | succ n ih =>
    obtain ⟨ih1, ih2⟩ := ih (Nat.le_of_succ_le hs)
    rw [List.range_succ, List.foldl_append, List.foldl_cons, List.foldl_nil]
    obtain ⟨ho1, ho2⟩ := sliceBody_other p step pt
      ((List.range n).foldl (sliceBody p step pt) st) n s b hb
      (by rintro ⟨he, _⟩; omega)
    rw [ho1, ho2, ih1, ih2]
    exact ⟨rfl, rfl⟩

/-- Effect of the whole slice loop for one seam point on the in-range cell
`(s, b)`: the presence flag becomes 1 exactly when the point is within
epsilon of slice `s` and falls in bin `b`; on the same condition the
contribution cell grows by the slice weight, and is otherwise untouched. -/
theorem sliceFold_char (p : SSWInput) (step : ℕ) (pt : Vec3) (n s b : ℕ)
    (st : (ℕ → ℕ) × (ℕ → ℝ)) (hs : s < n) (hb : b < p.bins) :
    ((List.range n).foldl (sliceBody p step pt) st).1 (s * p.bins + b)
      = (if |(transformedPoint p step pt).z - zPlane p s| < epsilon p
            ∧ binOf p (transformedPoint p step pt) = b
         then 1 else st.1 (s * p.bins + b))
    ∧ ((List.range n).foldl (sliceBody p step pt) st).2 (s * p.bins + b)
      = st.2 (s * p.bins + b)
        + (if |(transformedPoint p step pt).z - zPlane p s| < epsilon p
              ∧ binOf p (transformedPoint p step pt) = b
           then contributionWeightAt p (zPlane p s) else 0) := by
  induction n with
  | zero => omega
  | succ n ih =>
    rw [List.range_succ, List.foldl_append, List.foldl_cons, List.foldl_nil]
    rcases Nat.lt_succ_iff_lt_or_eq.mp hs with hlt | heq
    · obtain ⟨ih1, ih2⟩ := ih hlt
      obtain ⟨ho1, ho2⟩ := sliceBody_other p step pt
        ((List.range n).foldl (sliceBody p step pt) st) n s b hb
        (by rintro ⟨he, _⟩; omega)
      rw [ho1, ho2, ih1, ih2]
      exact ⟨rfl, rfl⟩
    · subst heq
      obtain ⟨hu1, hu2⟩ := sliceFold_untouched p step pt s s b st le_rfl hb
      by_cases hz : |(transformedPoint p step pt).z - zPlane p s| < epsilon p
      · by_cases hbin : binOf p (transformedPoint p step pt) = b
        · obtain ⟨hh1, hh2⟩ := sliceBody_hit p step pt
            ((List.range s).foldl (sliceBody p step pt) st) s b hz hbin
          rw [hh1, hh2, hu2, if_pos ⟨hz, hbin⟩, if_pos ⟨hz, hbin⟩]
          exact ⟨rfl, rfl⟩
        · obtain ⟨ho1, ho2⟩ := sliceBody_other p step pt
            ((List.range s).foldl (sliceBody p step pt) st) s s b hb
            (by rintro ⟨_, hbb⟩; exact hbin hbb)
          have hcond : ¬(|(transformedPoint p step pt).z - zPlane p s| < epsilon p
              ∧ binOf p (transformedPoint p step pt) = b) := by
            rintro ⟨_, hbb⟩
            exact hbin hbb
          rw [ho1, ho2, hu1, hu2, if_neg hcond, if_neg hcond, add_zero]
          exact ⟨rfl, rfl⟩
      · have hcond : ¬(|(transformedPoint p step pt).z - zPlane p s| < epsilon p
            ∧ binOf p (transformedPoint p step pt) = b) := by
          rintro ⟨hzz, _⟩
          exact hz hzz
        rw [sliceBody_nohit p step pt _ s hz, hu1, hu2, if_neg hcond, if_neg hcond, add_zero]
        exact ⟨rfl, rfl⟩

/-- Effect of processing a list of seam points in one step on the in-range
cell `(s, b)`: the presence flag is 1 exactly when at least one point hits
the cell, while the contribution cell receives one addition of the
(point-independent) slice weight per hitting point. -/
theorem pointsFold_char (p : SSWInput) (step : ℕ) (l : List Vec3)
    (st : (ℕ → ℕ) × (ℕ → ℝ)) (s b : ℕ) (hs : s < p.sliceCount) (hb : b < p.bins) :
    (l.foldl (fun st2 pt => sliceUpdate p step pt st2) st).1 (s * p.bins + b)
      = (if 0 < l.countP (fun pt =>
            decide (|(transformedPoint p step pt).z - zPlane p s| < epsilon p
              ∧ binOf p (transformedPoint p step pt) = b))
         then 1 else st.1 (s * p.bins + b))
    ∧ (l.foldl (fun st2 pt => sliceUpdate p step pt st2) st).2 (s * p.bins + b)
      = st.2 (s * p.bins + b)
        + (l.countP (fun pt =>
            decide (|(transformedPoint p step pt).z - zPlane p s| < epsilon p
              ∧ binOf p (transformedPoint p step pt) = b)) : ℝ)
          * contributionWeightAt p (zPlane p s) := by
  induction l generalizing st with
  | nil =>
    simp
  | cons pt l ih =>
    simp only [List.foldl_cons, List.countP_cons, decide_eq_true_eq]
    obtain ⟨ih1, ih2⟩ := ih (sliceUpdate p step pt st)
    obtain ⟨hc1, hc2⟩ := sliceFold_char p step pt p.sliceCount s b st hs hb
    have hc1b : (sliceUpdate p step pt st).1 (s * p.bins + b)
        = (if |(transformedPoint p step pt).z - zPlane p s| < epsilon p
              ∧ binOf p (transformedPoint p step pt) = b
           then 1 else st.1 (s * p.bins + b)) := hc1
    have hc2b : (sliceUpdate p step pt st).2 (s * p.bins + b)
        = st.2 (s * p.bins + b)
          + (if |(transformedPoint p step pt).z - zPlane p s| < epsilon p
                ∧ binOf p (transformedPoint p step pt) = b
             then contributionWeightAt p (zPlane p s) else 0) := hc2
    by_cases hhit : |(transformedPoint p step pt).z - zPlane p s| < epsilon p
        ∧ binOf p (transformedPoint p step pt) = b
    · refine ⟨?_, ?_⟩
      · rw [ih1, hc1b, if_pos hhit, if_pos hhit, ite_self,
            if_pos (Nat.succ_pos _)]
      · rw [ih2, hc2b, if_pos hhit, if_pos hhit]
        push_cast
        ring
    · refine ⟨?_, ?_⟩
      · rw [ih1, hc1b, if_neg hhit, if_neg hhit, add_zero]
      · rw [ih2, hc2b, if_neg hhit, if_neg hhit, add_zero, add_zero]

/-- C10: within a single rotation step, when several seam points fall into
the same angular bin of the same slice plane, the presence flag of that
(slice, bin) cell is set at most once for the step (it is 1 exactly when
the hit count is positive), while the contribution accumulator of that
cell receives one addition of the slice contribution weight per hitting
point: presence counts per-bin occupancy, contribution counts per-point
hits. -/
theorem presence_flag_vs_contribution_count (p : SSWInput) (step : ℕ) (cd0 : ℕ → ℝ)
    (s b : ℕ) (hs : s < p.sliceCount) (hb : b < p.bins) :
    (stepScan p step cd0).1 (s * p.bins + b)
      = (if 0 < cellHits p step s b then 1 else 0)
    ∧ (stepScan p step cd0).2 (s * p.bins + b)
      = cd0 (s * p.bins + b)
        + (cellHits p step s b : ℝ) * contributionWeightAt p (zPlane p s) := by
  have h := pointsFold_char p step p.seamPts (fun _ => 0, cd0) s b hs hb
  exact h

/-- Witness for C10 at a concrete input. -/
theorem presence_flag_vs_contribution_count_witness :
    (stepScan cexAllEqual 0 (fun _ => 0)).1 (0 * cexAllEqual.bins + 0)
      = (if 0 < cellHits cexAllEqual 0 0 0 then 1 else 0)
    ∧ (stepScan cexAllEqual 0 (fun _ => 0)).2 (0 * cexAllEqual.bins + 0)
      = (fun _ => (0:ℝ)) (0 * cexAllEqual.bins + 0)
        + (cellHits cexAllEqual 0 0 0 : ℝ) * contributionWeightAt cexAllEqual (zPlane cexAllEqual 0) :=
  presence_flag_vs_contribution_count cexAllEqual 0 (fun _ => 0) 0 0 (by decide) (by decide)

/-- The raw presence histogram cell after the whole rotation sweep is the
number of steps during which the cell was occupied. -/
theorem scanFold_hist_cell (p : SSWInput) (n : ℕ) (s b : ℕ) (hs : s < p.sliceCount)
    (hb : b < p.bins) :
    ((List.range n).foldl (scanBody p) (fun _ => 0, fun _ => 0)).1 (s * p.bins + b)
      = ∑ step in Finset.range n, (if 0 < cellHits p step s b then (1:ℝ) else 0) := by
  induction n with
  | zero => simp
  | succ n ih =>
    rw [List.range_succ, List.foldl_append, List.foldl_cons, List.foldl_nil,
        Finset.sum_range_succ, ← ih]
    have hsb : (scanBody p ((List.range n).foldl (scanBody p) (fun _ => 0, fun _ => 0)) n).1
        (s * p.bins + b)
        = ((List.range n).foldl (scanBody p) (fun _ => 0, fun _ => 0)).1 (s * p.bins + b)
          + ((stepScan p n
              ((List.range n).foldl (scanBody p) (fun _ => 0, fun _ => 0)).2).1
              (s * p.bins + b) : ℝ) := rfl
    rw [hsb]
    congr 1
    have h := (pointsFold_char p n p.seamPts
      (fun _ => 0, ((List.range n).foldl (scanBody p) (fun _ => 0, fun _ => 0)).2)
      s b hs hb).1
    have h2 : (stepScan p n ((List.range n).foldl (scanBody p) (fun _ => 0, fun _ => 0)).2).1
        (s * p.bins + b) = (if 0 < cellHits p n s b then 1 else 0) := h
    rw [h2]
    by_cases hc : 0 < cellHits p n s b
    · rw [if_pos hc, if_pos hc, Nat.cast_one]
    · rw [if_neg hc, if_neg hc, Nat.cast_zero]

/-- C1: for every input and seam-point set, with a positive rotation
resolution, every cell of every per-slice presence histogram returned by
`computeSSW` lies in the closed interval from 0 to 1: each (slice, bin)
cell is a 0-or-1 occupancy flag per step, the flags are summed over the
steps, and the sum is divided by the number of steps. -/
theorem histogram_cells_in_unit_interval (p : SSWInput) (hN : 0 < p.steps)
    (s b : ℕ) (hs : s < p.sliceCount) (hb : b < p.bins) :
    0 ≤ (computeSSW p).histograms s b ∧ (computeSSW p).histograms s b ≤ 1 := by
  have hval : (computeSSW p).histograms s b
      = (∑ step in Finset.range p.steps, (if 0 < cellHits p step s b then (1:ℝ) else 0))
        / (p.steps : ℝ) := by
    show histogramVal p s b = _
    unfold histogramVal histData scanState
    rw [scanFold_hist_cell p p.steps s b hs hb]
  have hNpos : (0:ℝ) < (p.steps : ℝ) := by exact_mod_cast hN
  have hsum0 : 0 ≤ ∑ step in Finset.range p.steps,
      (if 0 < cellHits p step s b then (1:ℝ) else 0) := by
    apply Finset.sum_nonneg
    intro i _
    split_ifs <;> norm_num
  have hsumN : (∑ step in Finset.range p.steps,
      (if 0 < cellHits p step s b then (1:ℝ) else 0)) ≤ (p.steps : ℝ) := by
    calc (∑ step in Finset.range p.steps, (if 0 < cellHits p step s b then (1:ℝ) else 0))
        ≤ ∑ _step in Finset.range p.steps, (1:ℝ) := by
          apply Finset.sum_le_sum
          intro i _
          split_ifs <;> norm_num
      _ = (p.steps : ℝ) := by simp
  rw [hval]
  exact ⟨div_nonneg hsum0 hNpos.le, (div_le_one hNpos).mpr hsumN⟩

/-- Witness for C1 at a concrete input. -/
theorem histogram_cells_in_unit_interval_witness :
    0 ≤ (computeSSW cexAllEqual).histograms 0 0
    ∧ (computeSSW cexAllEqual).histograms 0 0 ≤ 1 :=
  histogram_cells_in_unit_interval cexAllEqual (by decide) 0 0 (by decide) (by decide)

/-- Applying the identity quaternion is the identity. -/
theorem applyQuaternion_one (v : Vec3) : applyQuaternion ⟨0, 0, 0, 1⟩ v = v := by
  unfold applyQuaternion
  ext <;> norm_num

/-- The Hamilton product of identity quaternions is the identity. -/
theorem quatMultiply_one_one : quatMultiply ⟨0, 0, 0, 1⟩ ⟨0, 0, 0, 1⟩ = ⟨0, 0, 0, 1⟩ := by
  unfold quatMultiply
  ext <;> norm_num

/-- The Euler quaternion of the zero angles is the identity. -/
theorem setFromEuler_zero : setFromEuler 0 0 0 = ⟨0, 0, 0, 1⟩ := by
  unfold setFromEuler
  norm_num

/-- The per-step spin quaternion of step 0 is the identity. -/
theorem spinQuat_zero (p : SSWInput) : spinQuat p 0 = ⟨0, 0, 0, 1⟩ := by
  unfold spinQuat stepAngle setFromAxisAngle
  norm_num

/-- Aligning the reference axis with itself is the identity rotation. -/
theorem setFromUnitVectors_ref_ref : setFromUnitVectors ⟨1, 0, 0⟩ ⟨1, 0, 0⟩ = ⟨0, 0, 0, 1⟩ := by
  have hq : setFromUnitVectors ⟨1, 0, 0⟩ ⟨1, 0, 0⟩ = quatNormalize ⟨0, 0, 0, 2⟩ := by
    unfold setFromUnitVectors
    norm_num
  have h4 : Real.sqrt 4 = 2 := by
    rw [show (4:ℝ) = 2 ^ 2 by norm_num, Real.sqrt_sq (by norm_num : (0:ℝ) ≤ 2)]
  have hn : normSq ⟨0, 0, 0, (2:ℝ)⟩ = 4 := by
    unfold normSq
    norm_num
  rw [hq]
  unfold quatNormalize
  rw [hn, h4]
  rw [if_neg (by norm_num)]
  ext <;> norm_num

/-- With zero orientation, zero spin direction and zero gyro angle, the
full per-point transform at step 0 is the identity. -/
theorem transformedPoint_id (p : SSWInput) (h1 : p.orientX = 0) (h2 : p.orientY = 0)
    (h3 : p.orientZ = 0) (h4 : p.spinDirection = 0) (h5 : p.gyroAngle = 0) (pt : Vec3) :
    transformedPoint p 0 pt = pt := by
  have hinit : initQuat p = ⟨0, 0, 0, 1⟩ := by
    unfold initQuat
    rw [h1, h2, h3, setFromEuler_zero]
  have hdir : spinAxisDir p = ⟨1, 0, 0⟩ := by
    rw [spinAxisDir_eq, h4, h5]
    ext <;> norm_num
  have haxis : spinAxisQuat p = ⟨0, 0, 0, 1⟩ := by
    unfold spinAxisQuat
    rw [hdir, setFromUnitVectors_ref_ref]
  unfold transformedPoint fullQuat
  rw [hinit, haxis, spinQuat_zero, quatMultiply_one_one, quatMultiply_one_one,
      applyQuaternion_one]

/-- The angle of the positive x-axis is 0. -/
theorem atan2_zero_one : atan2 0 1 = 0 := by
  unfold atan2
  norm_num

/-- A point on the positive x-axis has normalized angle 0. -/
theorem pointAngle_xpos (v : Vec3) (hy : v.y = 0) (hx : v.x = 1) : pointAngle v = 0 := by
  unfold pointAngle
  rw [hy, hx, atan2_zero_one]
  norm_num

/-- A point on the positive x-axis falls into bin 0. -/
theorem binOf_xpos (p : SSWInput) (v : Vec3) (hy : v.y = 0) (hx : v.x = 1) :
    binOf p v = 0 := by
  unfold binOf
  rw [pointAngle_xpos v hy hx]
  norm_num [Int.zero_tmod]

/-- All five boundary z-values of `cexAllEqual` are 0, hence so is every
slice plane. -/
theorem cexAllEqual_zPlane (s : ℕ) : zPlane cexAllEqual s = 0 := by
  have hzd : zDirectSepStart cexAllEqual = 0 := by
    show (1:ℝ) * Real.sin ((0:ℝ) * DEG2RAD) = 0
    norm_num
  have hze : zInducedEnd cexAllEqual = 0 := by
    show (1:ℝ) * Real.sin ((0:ℝ) * DEG2RAD) = 0
    norm_num
  unfold zPlane zMin zMax
  rw [hzd, hze]
  norm_num

/-- The contribution weight of `cexAllEqual` vanishes everywhere: the
judgment zone has zero width. -/
theorem cexAllEqual_weight (z : ℝ) : contributionWeightAt cexAllEqual z = 0 := by
  have hzd : zDirectSepStart cexAllEqual = 0 := by
    show (1:ℝ) * Real.sin ((0:ℝ) * DEG2RAD) = 0
    norm_num
  have hze : zInducedEnd cexAllEqual = 0 := by
    show (1:ℝ) * Real.sin ((0:ℝ) * DEG2RAD) = 0
    norm_num
  unfold contributionWeightAt
  rw [hzd, hze]
  rw [if_neg]
  rintro ⟨ha, hb⟩
  simp only [min_self, max_self] at ha hb
  linarith

/-- The single seam point of `cexAllEqual` hits cell (0, 0) at step 0. -/
theorem cexAllEqual_cellHits_zero : cellHits cexAllEqual 0 0 0 = 1 := by
  unfold cellHits
  rw [show cexAllEqual.seamPts = [⟨1, 0, 0⟩] from rfl, List.countP_cons, List.countP_nil]
  have hc : |(transformedPoint cexAllEqual 0 ⟨1, 0, 0⟩).z - zPlane cexAllEqual 0| < epsilon cexAllEqual
      ∧ binOf cexAllEqual (transformedPoint cexAllEqual 0 ⟨1, 0, 0⟩) = 0 := by
    rw [transformedPoint_id cexAllEqual rfl rfl rfl rfl rfl]
    refine ⟨?_, binOf_xpos cexAllEqual ⟨1, 0, 0⟩ rfl rfl⟩
    rw [cexAllEqual_zPlane]
    show |(0:ℝ) - 0| < (1:ℝ) * 1.5
    norm_num
  simp [hc]

/-- The single seam point of `cexAllEqual` misses every bin other than 0. -/
theorem cexAllEqual_cellHits_ne (b : ℕ) (hb : b ≠ 0) : cellHits cexAllEqual 0 0 b = 0 := by
  unfold cellHits
  rw [show cexAllEqual.seamPts = [⟨1, 0, 0⟩] from rfl, List.countP_cons, List.countP_nil]
  have hc : ¬(|(transformedPoint cexAllEqual 0 ⟨1, 0, 0⟩).z - zPlane cexAllEqual 0| < epsilon cexAllEqual
      ∧ binOf cexAllEqual (transformedPoint cexAllEqual 0 ⟨1, 0, 0⟩) = b) := by
    rintro ⟨_, h2⟩
    rw [transformedPoint_id cexAllEqual rfl rfl rfl rfl rfl,
        binOf_xpos cexAllEqual ⟨1, 0, 0⟩ rfl rfl] at h2
    exact hb h2.symm
  simp [hc]

/-- The per-slice presence histogram of `cexAllEqual`: 1 in bin 0, else 0. -/
theorem cexAllEqual_hist (b : ℕ) (hb : b < 4) :
    histogramVal cexAllEqual 0 b = (if b = 0 then 1 else 0) := by
  unfold histogramVal histData scanState
  rw [scanFold_hist_cell cexAllEqual cexAllEqual.steps 0 b (by decide)
    (show b < cexAllEqual.bins from hb)]
  rw [show cexAllEqual.steps = 1 from rfl, Finset.sum_range_one]
  by_cases h0 : b = 0
  · subst h0
    rw [cexAllEqual_cellHits_zero]
    norm_num
  · rw [cexAllEqual_cellHits_ne b h0, if_neg h0]
    norm_num

/-- The combined presence histogram of `cexAllEqual`: 1 in bin 0, else 0. -/
theorem cexAllEqual_combined (b : ℕ) (hb : b < 4) :
    combinedHist cexAllEqual b = (if b = 0 then 1 else 0) := by
  unfold combinedHist
  rw [show cexAllEqual.sliceCount = 1 from rfl, Finset.sum_range_one]
  rw [cexAllEqual_hist b hb]
  norm_num

/-- Side-A sum of `cexAllEqual`: bins 1, 2, 3 are on side A and are empty. -/
theorem cexAllEqual_sumA : sumA cexAllEqual = 0 := by
  unfold sumA sideSumA
  rw [show cexAllEqual.bins = 4 from rfl,
      show judgmentAngle cexAllEqual = Real.pi / 2 from by
        show (0:ℝ) + Real.pi / 2 = Real.pi / 2
        rw [zero_add]]
  rw [Finset.sum_range_succ, Finset.sum_range_succ, Finset.sum_range_succ,
      Finset.sum_range_one]
  have s0 : Real.sin (((0:ℕ):ℝ) / ((4:ℕ):ℝ) * (2 * Real.pi) - Real.pi / 2) = -1 := by
    rw [show ((0:ℕ):ℝ) / ((4:ℕ):ℝ) * (2 * Real.pi) - Real.pi / 2 = -(Real.pi / 2) by
      push_cast; ring]
    rw [Real.sin_neg, Real.sin_pi_div_two]
  have s1 : Real.sin (((1:ℕ):ℝ) / ((4:ℕ):ℝ) * (2 * Real.pi) - Real.pi / 2) = 0 := by
    rw [show ((1:ℕ):ℝ) / ((4:ℕ):ℝ) * (2 * Real.pi) - Real.pi / 2 = 0 by
      push_cast; ring]
    exact Real.sin_zero
  have s2 : Real.sin (((2:ℕ):ℝ) / ((4:ℕ):ℝ) * (2 * Real.pi) - Real.pi / 2) = 1 := by
    rw [show ((2:ℕ):ℝ) / ((4:ℕ):ℝ) * (2 * Real.pi) - Real.pi / 2 = Real.pi / 2 by
      push_cast; ring]
    exact Real.sin_pi_div_two
  have s3 : Real.sin (((3:ℕ):ℝ) / ((4:ℕ):ℝ) * (2 * Real.pi) - Real.pi / 2) = 0 := by
    rw [show ((3:ℕ):ℝ) / ((4:ℕ):ℝ) * (2 * Real.pi) - Real.pi / 2 = Real.pi by
      push_cast; ring]
    exact Real.sin_pi
  rw [s0, s1, s2, s3]
  norm_num
  rw [cexAllEqual_combined 1 (by norm_num), cexAllEqual_combined 2 (by norm_num),
      cexAllEqual_combined 3 (by norm_num)]
  norm_num

/-- Side-B sum of `cexAllEqual`: only bin 0 is on side B, and it is full. -/
theorem cexAllEqual_sumB : sumB cexAllEqual = 1 := by
  unfold sumB sideSumB
  rw [show cexAllEqual.bins = 4 from rfl,
      show judgmentAngle cexAllEqual = Real.pi / 2 from by
        show (0:ℝ) + Real.pi / 2 = Real.pi / 2
        rw [zero_add]]
  rw [Finset.sum_range_succ, Finset.sum_range_succ, Finset.sum_range_succ,
      Finset.sum_range_one]
  have s0 : Real.sin (((0:ℕ):ℝ) / ((4:ℕ):ℝ) * (2 * Real.pi) - Real.pi / 2) = -1 := by
    rw [show ((0:ℕ):ℝ) / ((4:ℕ):ℝ) * (2 * Real.pi) - Real.pi / 2 = -(Real.pi / 2) by
      push_cast; ring]
    rw [Real.sin_neg, Real.sin_pi_div_two]
  have s1 : Real.sin (((1:ℕ):ℝ) / ((4:ℕ):ℝ) * (2 * Real.pi) - Real.pi / 2) = 0 := by
    rw [show ((1:ℕ):ℝ) / ((4:ℕ):ℝ) * (2 * Real.pi) - Real.pi / 2 = 0 by
      push_cast; ring]
    exact Real.sin_zero
  have s2 : Real.sin (((2:ℕ):ℝ) / ((4:ℕ):ℝ) * (2 * Real.pi) - Real.pi / 2) = 1 := by
    rw [show ((2:ℕ):ℝ) / ((4:ℕ):ℝ) * (2 * Real.pi) - Real.pi / 2 = Real.pi / 2 by
      push_cast; ring]
    exact Real.sin_pi_div_two
  have s3 : Real.sin (((3:ℕ):ℝ) / ((4:ℕ):ℝ) * (2 * Real.pi) - Real.pi / 2) = 0 := by
    rw [show ((3:ℕ):ℝ) / ((4:ℕ):ℝ) * (2 * Real.pi) - Real.pi / 2 = Real.pi by
      push_cast; ring]
    exact Real.sin_pi
  rw [s0, s1, s2, s3]
  norm_num
  rw [cexAllEqual_combined 0 (by norm_num)]
  norm_num

/-- C4 counterexample: at `cexAllEqual` all five boundary angles are equal,
yet the returned `asymmetryIndex` is 1, not 0 — seam presence is still
accumulated when the judgment zone collapses. -/
theorem equal_boundary_angles_asymmetry_counterexample :
    (cexAllEqual.alphaFrontDeg = cexAllEqual.inducedZoneDeg
      ∧ cexAllEqual.inducedZoneDeg = cexAllEqual.inducedStartDeg
      ∧ cexAllEqual.inducedStartDeg = cexAllEqual.naturalZoneDeg
      ∧ cexAllEqual.naturalZoneDeg = cexAllEqual.alphaBackDeg)
    ∧ (computeSSW cexAllEqual).asymmetryIndex = 1
    ∧ (computeSSW cexAllEqual).asymmetryIndex ≠ 0 := by
  have hval : (computeSSW cexAllEqual).asymmetryIndex = 1 := by
    show asymmetryIndex cexAllEqual = 1
    unfold asymmetryIndex
    rw [cexAllEqual_sumA, cexAllEqual_sumB]
    norm_num
  refine ⟨⟨rfl, rfl, rfl, rfl⟩, hval, ?_⟩
  rw [hval]
  norm_num

/-- Boundary z-value of `cexSymmetric`: the front plane sits at -1. -/
theorem cexSym_zDS : zDirectSepStart cexSymmetric = -1 := by
  show (1:ℝ) * Real.sin ((-90:ℝ) * DEG2RAD) = -1
  rw [show ((-90:ℝ)) * DEG2RAD = -(Real.pi / 2) from by unfold DEG2RAD; ring]
  rw [Real.sin_neg, Real.sin_pi_div_two]
  norm_num

/-- Boundary z-value of `cexSymmetric`: the induced zone plane sits at 0. -/
theorem cexSym_zIZ : zInducedZone cexSymmetric = 0 := by
  show (1:ℝ) * Real.sin ((0:ℝ) * DEG2RAD) = 0
  norm_num

/-- Boundary z-value of `cexSymmetric`: the induced start plane sits at -1. -/
theorem cexSym_zIS : zInducedStart cexSymmetric = -1 := by
  show (1:ℝ) * Real.sin ((-90:ℝ) * DEG2RAD) = -1
  rw [show ((-90:ℝ)) * DEG2RAD = -(Real.pi / 2) from by unfold DEG2RAD; ring]
  rw [Real.sin_neg, Real.sin_pi_div_two]
  norm_num

/-- Boundary z-value of `cexSymmetric`: the back plane sits at 1. -/
theorem cexSym_zIE : zInducedEnd cexSymmetric = 1 := by
  show (1:ℝ) * Real.sin ((90:ℝ) * DEG2RAD) = 1
  rw [show ((90:ℝ)) * DEG2RAD = Real.pi / 2 from by unfold DEG2RAD; ring]
  rw [Real.sin_pi_div_two]
  norm_num

/-- The single slice plane of `cexSymmetric` sits at the zone midpoint 0. -/
theorem cexSym_zPlane : zPlane cexSymmetric 0 = 0 := by
  unfold zPlane zMin zMax
  rw [cexSym_zDS, cexSym_zIE]
  rw [show cexSymmetric.sliceCount = 1 from rfl]
  rw [min_eq_left (by norm_num : (-1:ℝ) ≤ 1), max_eq_right (by norm_num : (-1:ℝ) ≤ 1)]
  norm_num

/-- In `cexSymmetric` the seam point stays farther than epsilon from the
slice plane, so the whole slice loop is a no-op for the step. -/
theorem cexSym_stepScan : stepScan cexSymmetric 0 (fun _ => 0) = (fun _ => 0, fun _ => 0) := by
  unfold stepScan
  rw [show cexSymmetric.seamPts = [⟨1, 0, 1 / 2⟩] from rfl]
  simp only [List.foldl_cons, List.foldl_nil]
  unfold sliceUpdate
  rw [show cexSymmetric.sliceCount = 1 from rfl, show List.range 1 = [0] from rfl]
  simp only [List.foldl_cons, List.foldl_nil]
  apply sliceBody_nohit
  rw [transformedPoint_id cexSymmetric rfl rfl rfl rfl rfl, cexSym_zPlane]
  rw [show epsilon cexSymmetric = 3 / 20 from by
    show (1 / 10 : ℝ) * 1.5 = 3 / 20
    norm_num]
  show ¬ |(1 / 2 : ℝ) - 0| < 3 / 20
  rw [sub_zero, abs_of_nonneg (by norm_num : (0:ℝ) ≤ 1 / 2)]
  norm_num

/-- The contribution accumulator of `cexSymmetric` is identically zero. -/
theorem cexSym_scan2 (k : ℕ) : (scanState cexSymmetric).2 k = 0 := by
  unfold scanState
  rw [show cexSymmetric.steps = 1 from rfl, show List.range 1 = [0] from rfl]
  simp only [List.foldl_cons, List.foldl_nil]
  show (stepScan cexSymmetric 0 (fun _ => 0)).2 k = 0
  rw [cexSym_stepScan]

/-- Every cell of the combined contribution histogram of `cexSymmetric`
is 0 — in particular the histogram is symmetric about the judgment line. -/
theorem cexSym_combinedContrib (b : ℕ) : combinedContrib cexSymmetric b = 0 := by
  unfold combinedContrib contribHistVal contribData
  rw [show cexSymmetric.sliceCount = 1 from rfl, Finset.sum_range_one]
  rw [cexSym_scan2]
  norm_num

/-- Effect contribution of the single seam point of `cexSymmetric`: it lies
strictly inside the judgment zone, outside the direct-separation sub-zone,
and on side B of the judgment line, contributing 1 to `effectSumB`. -/
theorem cexSym_effectDelta : effectDelta cexSymmetric 0 ⟨1, 0, 1 / 2⟩ = (0, 1) := by
  unfold effectDelta
  rw [transformedPoint_id cexSymmetric rfl rfl rfl rfl rfl]
  rw [cexSym_zDS, cexSym_zIE, cexSym_zIS, cexSym_zIZ]
  rw [min_eq_left (by norm_num : (-1:ℝ) ≤ 1), max_eq_right (by norm_num : (-1:ℝ) ≤ 1)]
  simp only [min_self, max_self]
  rw [if_pos (by constructor <;> norm_num)]
  rw [pointAngle_xpos ⟨1, 0, 1 / 2⟩ rfl rfl]
  rw [show judgmentAngle cexSymmetric = Real.pi / 2 from by
    show (0:ℝ) + Real.pi / 2 = Real.pi / 2
    rw [zero_add]]
  rw [zero_sub, Real.sin_neg, Real.sin_pi_div_two]
  rw [if_neg (by norm_num)]
  rw [if_neg (by rintro ⟨_, h⟩; norm_num at h)]
  rw [show ((cexSymmetric.steps : ℝ)) = 1 from by
    rw [show cexSymmetric.steps = 1 from rfl]
    norm_num]
  norm_num

/-- The hemisphere sums of `cexSymmetric`: all effect weight lands on
side B. -/
theorem cexSym_effectSums : effectSumA cexSymmetric = 0 ∧ effectSumB cexSymmetric = 1 := by
  constructor
  · unfold effectSumA
    rw [show cexSymmetric.steps = 1 from rfl, Finset.sum_range_one,
        show cexSymmetric.seamPts = [⟨1, 0, 1 / 2⟩] from rfl]
    simp only [List.map_cons, List.map_nil, List.sum_cons, List.sum_nil]
    rw [cexSym_effectDelta]
    norm_num
  · unfold effectSumB
    rw [show cexSymmetric.steps = 1 from rfl, Finset.sum_range_one,
        show cexSymmetric.seamPts = [⟨1, 0, 1 / 2⟩] from rfl]
    simp only [List.map_cons, List.map_nil, List.sum_cons, List.sum_nil]
    rw [cexSym_effectDelta]
    norm_num

/-- C3 counterexample: at `cexSymmetric` the combined contribution
histogram is judgment-line symmetric (it is identically zero), yet the
returned `sswEffectIndex` is 1, not 0 — the effect index is computed from
the per-point hemisphere sums, independently of the contribution
histogram. -/
theorem symmetric_contrib_effect_counterexample :
    (∀ i < cexSymmetric.bins,
      (computeSSW cexSymmetric).combinedContrib i
        = (computeSSW cexSymmetric).combinedContrib (mirrorBin cexSymmetric i))
    ∧ (computeSSW cexSymmetric).sswEffectIndex = 1
    ∧ (computeSSW cexSymmetric).sswEffectIndex ≠ 0 := by
  have hidx : (computeSSW cexSymmetric).sswEffectIndex = 1 := by
    show sswEffectIndex cexSymmetric = 1
    unfold sswEffectIndex
    rw [cexSym_effectSums.1, cexSym_effectSums.2]
    rw [show (0:ℝ) - 1 = -1 by norm_num, abs_neg, abs_one]
  refine ⟨?_, hidx, ?_⟩
  · intro i _
    show combinedContrib cexSymmetric i = combinedContrib cexSymmetric (mirrorBin cexSymmetric i)
    rw [cexSym_combinedContrib, cexSym_combinedContrib]
  · rw [hidx]
    norm_num

/-- Witness for C3 (amended) at `cexSymmetric`, whose combined contribution
histogram is identically zero and hence symmetric. -/
theorem symmetric_contrib_force_vector_zero_witness :
    wx cexSymmetric = 0 ∧ wy cexSymmetric = 0 :=
  symmetric_contrib_force_vector_zero cexSymmetric
    (fun i _ => by rw [cexSym_combinedContrib, cexSym_combinedContrib])
